import Mathlib

/-!
Shallow embedding of the GlobalStake Bitcoin PSBT tooling:
the sign / validate / finalize / extract pipeline of sign_and_broadcast.js,
the UTXO materializer of fetch_utxos_and_build.js, and the PSBT input
inspection of inspect_psbt.js.  Byte strings are lists of naturals reduced
mod 256 where overflow matters; fallible operations return Except.
-/

namespace BtcCore

/-- Error taxonomy of the pipeline (spec section 7). -/
inductive Err where
  | unknownNetwork
  | noInputsSigned
  | signatureVerificationFailed
  | incompleteInput
  | unsupportedScriptType
  | notFullyFinalized
  | emptyUtxoSet
  | missingPrevoutData
  | signingSkipped
  | inputOutOfRange
  | invalidAddress
  | noRegtestBroadcaster
deriving DecidableEq, Repr

/-- The four bitcoin networks distinguished by bitcoinjs-lib that this
tooling selects between. -/
inductive Network where
  | bitcoin
  | testnet
  | signet
  | regtest
deriving DecidableEq, Repr

/-- Embeds the JavaScript toLowerCase call on the ASCII network selectors,
written over the character list so that it evaluates inside proofs. -/
def toLowerStr (s : String) : String :=
  String.mk (s.data.map Char.toLower)

/-- Embeds getNetwork of sign_and_broadcast.js: lowercases the selector and
throws on anything unrecognized. -/
def getNetwork (name : String) : Except Err Network :=
  let n := toLowerStr name
  if n = "mainnet" ∨ n = "bitcoin" then .ok .bitcoin
  else if n = "testnet" then .ok .testnet
  else if n = "signet" then .ok .signet
  else if n = "regtest" then .ok .regtest
  else .error .unknownNetwork

/-- Embeds the network ternary of fetch_utxos_and_build.js: testnet when the
argument lowercases to "testnet", otherwise bitcoin mainnet, with no failure
branch. -/
def networkTernary (netArg : String) : Network :=
  if toLowerStr netArg = "testnet" then .testnet else .bitcoin

/-- Bech32 human readable prefix per network, as bitcoinjs-lib assigns them
(testnet and signet share tb). -/
def bech32Hrp : Network → String
  | .bitcoin => "bc"
  | .testnet => "tb"
  | .signet => "tb"
  | .regtest => "bcrt"

/-- A fold based mixing function standing in for the cryptographic hashes;
deterministic in its input bytes. -/
def foldMix (seed : Nat) (bs : List Nat) : Nat :=
  bs.foldl (fun a b => (a * 131 + b + 1) % 65536) seed

/-- A tagged byte-list hash built from foldMix, 32 entries. -/
def hashBytes (tag : Nat) (bs : List Nat) : List Nat :=
  (List.range 32).map (fun i => foldMix (tag + i) bs % 256)

/-- Modelled from the spec: the 20 byte hash of a compressed public key used
by the P2WPKH program (the hash160 the library computes); a deterministic
function of the key bytes. -/
def hash160 (bs : List Nat) : List Nat :=
  (List.range 20).map (fun i => foldMix (i + 7) bs % 256)

/-- The segwit v0 P2WPKH locking script for a public key: version 0 push of
the 20 byte key hash. -/
def p2wpkhScript (pubkey : List Nat) : List Nat :=
  [0x00, 0x14] ++ hash160 pubkey

/-- A bech32 address, kept structurally as its human readable prefix and
witness program rather than as an encoded string. -/
structure Address where
  hrp : String
  program : List Nat
deriving DecidableEq, Repr

/-- Embeds bitcoin.payments.p2wpkh: the address a public key controls on a
network. -/
def p2wpkhAddress (pubkey : List Nat) (n : Network) : Address :=
  ⟨bech32Hrp n, hash160 pubkey⟩

/-- Embeds bitcoin.address.toOutputScript: decodes an address for the given
network, failing when the prefix belongs to a different network. -/
def toOutputScript (a : Address) (n : Network) : Except Err (List Nat) :=
  if a.hrp = bech32Hrp n then .ok ([0x00, 0x14] ++ a.program)
  else .error .invalidAddress

/-- Embeds bitcoin.address.fromOutputScript for segwit v0: recovers the
address of a P2WPKH script on the given network. -/
def fromOutputScript (script : List Nat) (n : Network) : Option Address :=
  match script with
  | 0x00 :: 0x14 :: prog => if prog.length = 20 then some ⟨bech32Hrp n, prog⟩ else none
  | _ => none

/-- A key pair as the scripts hold it: private scalar bytes plus the public
key bytes carried alongside. -/
structure KeyPair where
  privkey : List Nat
  pubkey : List Nat
deriving DecidableEq, Repr

/-- Modelled from the spec: derivation of the public point from the private
scalar (the curve multiplication tiny-secp256k1 performs); deterministic. -/
def derivePub (priv : List Nat) : List Nat :=
  priv.map (fun b => (b * 7 + 3) % 256)

/-- Modelled from the spec: the unique signature bytes a public key admits
over a digest, the value both signing and verification agree on. -/
def sigCore (pk h : List Nat) : List Nat :=
  hashBytes 2 (pk ++ [0xff] ++ h)

/-- Modelled from the spec: ecc.sign of tiny-secp256k1 - deterministic
RFC6979 style signing, a pure function of the digest and the private key,
with no randomness input. -/
def eccSign (h priv : List Nat) : List Nat :=
  sigCore (derivePub priv) h

/-- Modelled from the spec: ecc.verify of tiny-secp256k1 - checks a
signature against the public key and digest by curve arithmetic. -/
def eccVerify (h pk s : List Nat) : Bool :=
  s = sigCore pk h

/-- The witnessUtxo metadata a PSBT input carries: the previous output value
in satoshis and its locking script. -/
structure WitnessUtxo where
  value : Nat
  script : List Nat
deriving DecidableEq, Repr

/-- A partial signature record attached to an input: public key, signature
bytes, sighash type flag. -/
structure PartialSig where
  pubkey : List Nat
  sig : List Nat
  sighashType : Nat
deriving DecidableEq, Repr

/-- A finalized witness stack. -/
structure Witness where
  stack : List (List Nat)
deriving DecidableEq, Repr

/-- A PSBT input: previous output reference, optional witnessUtxo metadata,
at most one partial signature, optional finalized witness. -/
structure PsbtInput where
  prevTxid : List Nat
  prevVout : Nat
  witnessUtxo : Option WitnessUtxo
  partialSig : Option PartialSig
  finalWitness : Option Witness
deriving DecidableEq, Repr

/-- A transaction output: value in satoshis and locking script. -/
structure TxOutput where
  value : Nat
  script : List Nat
deriving DecidableEq, Repr

/-- The in-memory PSBT: ordered inputs and outputs. -/
structure Psbt where
  inputs : List PsbtInput
  outputs : List TxOutput
deriving DecidableEq, Repr

/-- Little endian bytes of a value, four entries. -/
def natBytes (n : Nat) : List Nat :=
  [n % 256, n / 256 % 256, n / 65536 % 256, n / 16777216 % 256]

/-- Modelled from the spec: the BIP-143 digest an input signature commits
to, recomputed from the previous output reference, the witnessUtxo value
and script, and the sighash type. -/
def requiredSighash (inp : PsbtInput) (wu : WitnessUtxo) (sighashType : Nat) : List Nat :=
  hashBytes 1 (inp.prevTxid ++ natBytes inp.prevVout ++ natBytes wu.value ++
    wu.script ++ [sighashType % 256])

/-- The input as it stands after a signature is attached: the partial
signature record holds the key public key, the deterministic signature over
the recomputed digest, and the sighash type. -/
def attachSig (key : KeyPair) (t : Nat) (inp : PsbtInput) (wu : WitnessUtxo) : PsbtInput :=
  { inp with partialSig := some ⟨key.pubkey, eccSign (requiredSighash inp wu t) key.privkey, t⟩ }

/-- Embeds psbt.signInput with the custom signer of sign_and_broadcast.js:
fails on a missing input, on missing witnessUtxo metadata, and on a locking
script that does not match the key; otherwise attaches the partial
signature produced by the deterministic ecc.sign. -/
def signInput (psbt : Psbt) (i : Nat) (key : KeyPair) (sighashType : Nat) :
    Except Err Psbt :=
  match psbt.inputs[i]? with
  | none => .error .inputOutOfRange
  | some inp =>
    match inp.witnessUtxo with
    | none => .error .missingPrevoutData
    | some wu =>
      if wu.script = p2wpkhScript key.pubkey then
        .ok { psbt with inputs := psbt.inputs.set i (attachSig key sighashType inp wu) }
      else .error .signingSkipped

/-- Embeds the signing loop of sign_and_broadcast.js: tries signInput on
every index with SIGHASH_ALL, counting successes and swallowing per-input
failures. -/
def signAllLoop (psbt : Psbt) (key : KeyPair) : Psbt × Nat :=
  (List.range psbt.inputs.length).foldl
    (fun st i =>
      match signInput st.1 i key 1 with
      | .ok p => (p, st.2 + 1)
      | .error _ => st)
    (psbt, 0)

/-- Embeds the signed count check of sign_and_broadcast.js: a zero count is
the hard failure NoInputsSigned, anything else succeeds with the partially
signed PSBT and the count. -/
def signAllChecked (psbt : Psbt) (key : KeyPair) : Except Err (Psbt × Nat) :=
  let st := signAllLoop psbt key
  if st.2 = 0 then .error .noInputsSigned else .ok st

/-- Per-input signature check: recompute the digest and verify the attached
signature with the explicit validator of sign_and_broadcast.js; inputs with
no partial signature are skipped, a partial signature without witnessUtxo
metadata cannot be recomputed and fails. -/
def validateInputSigs (inp : PsbtInput) : Bool :=
  match inp.partialSig with
  | none => true
  | some ps =>
    match inp.witnessUtxo with
    | none => false
    | some wu => eccVerify (requiredSighash inp wu ps.sighashType) ps.pubkey ps.sig

/-- Embeds psbt.validateSignaturesOfAllInputs with the explicit ecc.verify
validator: true only when every attached signature re-verifies. -/
def validateSignaturesOfAllInputs (psbt : Psbt) : Bool :=
  psbt.inputs.all validateInputSigs

/-- Modelled from the spec: finalization of one P2WPKH input - builds the
two element witness stack from the partial signature, failing with
IncompleteInput when none is attached and with UnsupportedScriptType when
the locking script is not the P2WPKH script of the signing key. -/
def finalizeInput (inp : PsbtInput) : Except Err PsbtInput :=
  match inp.partialSig with
  | none => .error .incompleteInput
  | some ps =>
    match inp.witnessUtxo with
    | none => .error .missingPrevoutData
    | some wu =>
      if wu.script = p2wpkhScript ps.pubkey then
        .ok { inp with finalWitness := some ⟨[ps.sig ++ [ps.sighashType], ps.pubkey]⟩ }
      else .error .unsupportedScriptType

/-- Finalize a list of inputs in order, aborting on the first failure. -/
def finalizeInputsGo : List PsbtInput → Except Err (List PsbtInput)
  | [] => .ok []
  | inp :: rest =>
    match finalizeInput inp with
    | .error e => .error e
    | .ok inp2 =>
      match finalizeInputsGo rest with
      | .error e => .error e
      | .ok rest2 => .ok (inp2 :: rest2)

/-- Modelled from the spec: psbt.finalizeAllInputs - finalizes every input;
any single failure aborts the whole operation leaving the PSBT in its
pre-finalization state, surfaced as the pair of the unchanged PSBT and the
error. -/
def finalizeAllInputsState (psbt : Psbt) : Psbt × Option Err :=
  match finalizeInputsGo psbt.inputs with
  | .ok is => ({ psbt with inputs := is }, none)
  | .error e => (psbt, some e)

/-- An extracted raw transaction: serialized bytes plus the transaction id. -/
structure RawTx where
  txBytes : List Nat
  txid : List Nat
deriving DecidableEq, Repr

/-- Serialize one finalized input: previous output reference plus the
witness stack bytes. -/
def serializeInput (inp : PsbtInput) : List Nat :=
  inp.prevTxid ++ natBytes inp.prevVout ++
    (match inp.finalWitness with
     | some w => w.stack.foldr (fun item acc => item.length % 256 :: item ++ acc) []
     | none => [])

/-- Serialize one input without witness data, for the txid computation. -/
def serializeInputNoWitness (inp : PsbtInput) : List Nat :=
  inp.prevTxid ++ natBytes inp.prevVout

/-- Serialize the outputs. -/
def serializeOutputs (outs : List TxOutput) : List Nat :=
  outs.foldr (fun o acc => natBytes o.value ++ o.script ++ acc) []

/-- The wire serialization of a finalized PSBT. -/
def serializeTx (psbt : Psbt) : List Nat :=
  psbt.inputs.foldr (fun inp acc => serializeInput inp ++ acc)
    (serializeOutputs psbt.outputs)

/-- The transaction id: double hash of the serialization with witness data
excluded. -/
def txidOf (psbt : Psbt) : List Nat :=
  hashBytes 3 (hashBytes 3
    (psbt.inputs.foldr (fun inp acc => serializeInputNoWitness inp ++ acc)
      (serializeOutputs psbt.outputs)))

/-- Modelled from the spec: psbt.extractTransaction - requires every input
finalized, failing with NotFullyFinalized otherwise, and only then
serializes the raw transaction and computes its id. -/
def extractTransaction (psbt : Psbt) : Except Err RawTx :=
  if psbt.inputs.all (fun inp => inp.finalWitness.isSome) then
    .ok ⟨serializeTx psbt, txidOf psbt⟩
  else .error .notFullyFinalized

/-- The observable milestones of the sign_and_broadcast.js pipeline, in the
order the script reaches them. -/
inductive Event where
  | signedCount (n : Nat)
  | validated (ok : Bool)
  | finalizedAll
  | extracted
deriving DecidableEq, Repr

/-- Embeds the main control flow of sign_and_broadcast.js on an already
parsed PSBT and key: resolve the network, sign every input, abort on a zero
signed count, gate on independent signature validation, finalize, extract.
Alongside the result it records the milestones reached. -/
def signAndBroadcastPipeline (netArg : String) (key : KeyPair) (psbt0 : Psbt) :
    Except Err (Psbt × RawTx) × List Event :=
  match getNetwork netArg with
  | .error e => (.error e, [])
  | .ok _ =>
    if (signAllLoop psbt0 key).2 = 0 then
      (.error .noInputsSigned, [.signedCount (signAllLoop psbt0 key).2])
    else if validateSignaturesOfAllInputs (signAllLoop psbt0 key).1 then
      match finalizeAllInputsState (signAllLoop psbt0 key).1 with
      | (_, some e) =>
        (.error e, [.signedCount (signAllLoop psbt0 key).2, .validated true])
      | (psbt2, none) =>
        match extractTransaction psbt2 with
        | .error e =>
          (.error e, [.signedCount (signAllLoop psbt0 key).2, .validated true, .finalizedAll])
        | .ok tx =>
          (.ok (psbt2, tx),
            [.signedCount (signAllLoop psbt0 key).2, .validated true, .finalizedAll, .extracted])
    else
      (.error .signatureVerificationFailed,
        [.signedCount (signAllLoop psbt0 key).2, .validated false])

/-- A UTXO as the external block explorer query returns it.  The response
is untrusted; responseScript stands for any script material such a source
could attach, which the materializer must ignore. -/
structure Utxo where
  txid : List Nat
  vout : Nat
  value : Nat
  responseScript : List Nat
deriving DecidableEq, Repr

/-- One entry of the utxos array of the transfer request body built by
fetch_utxos_and_build.js. -/
structure TransferUtxo where
  txid : List Nat
  vout : Nat
  amountSats : Nat
  scriptPubkey : List Nat
  sequence : Option Nat
deriving DecidableEq, Repr

/-- The transfer request body fetch_utxos_and_build.js emits for the
external builder service. -/
structure TransferInput where
  network : String
  toAddress : String
  amountBtc : String
  changeAddress : Address
  feeRateSatPerVb : Nat
  assumeTaproot : Bool
  utxos : List TransferUtxo
deriving DecidableEq, Repr

/-- Embeds one step of the utxos.map of fetch_utxos_and_build.js: keep
txid, vout and value from the response but take the locking script from
getP2WPKHScriptPubKeyHex on the owner address. -/
def materializeUtxo (fromAddress : Address) (network : Network) (u : Utxo) :
    Except Err TransferUtxo :=
  match toOutputScript fromAddress network with
  | .error e => .error e
  | .ok spk => .ok ⟨u.txid, u.vout, u.value, spk, none⟩

/-- Materialize the whole UTXO list in order. -/
def materializeUtxos (fromAddress : Address) (network : Network) :
    List Utxo → Except Err (List TransferUtxo)
  | [] => .ok []
  | u :: rest =>
    match materializeUtxo fromAddress network u with
    | .error e => .error e
    | .ok t =>
      match materializeUtxos fromAddress network rest with
      | .error e => .error e
      | .ok ts => .ok (t :: ts)

/-- Embeds the body building of fetch_utxos_and_build.js: resolve the
network by the ternary, derive the owner address from the key, fail with
EmptyUtxoSet on an empty list, otherwise emit the transfer request with the
change address fixed to the owner address. -/
def buildTransfer (netArg toAddress amountBtc : String) (key : KeyPair)
    (feeRate : Nat) (utxos : List Utxo) : Except Err TransferInput :=
  let network := networkTernary netArg
  let fromAddress := p2wpkhAddress key.pubkey network
  if utxos.length = 0 then .error .emptyUtxoSet
  else
    match materializeUtxos fromAddress network utxos with
    | .error e => .error e
    | .ok tus => .ok ⟨toLowerStr netArg, toAddress, amountBtc, fromAddress, feeRate, false, tus⟩

/-- Embeds the per-input address printing of inspect_psbt.js: decode the
witnessUtxo script with bitcoin.networks.testnet hardcoded, whatever
network the PSBT truly belongs to. -/
def inspectAddress (inp : PsbtInput) : Option Address :=
  match inp.witnessUtxo with
  | some wu => fromOutputScript wu.script .testnet
  | none => none

/-- Whether signInput would succeed on this input with this key: witnessUtxo
present and its locking script equal to the P2WPKH script of the key. -/
def matchesKey (key : KeyPair) (inp : PsbtInput) : Bool :=
  match inp.witnessUtxo with
  | some wu => wu.script = p2wpkhScript key.pubkey
  | none => false

/-- The effect of one iteration of the signing loop on its own input:
matching inputs gain the deterministic partial signature, everything else
is left untouched. -/
def signElem (key : KeyPair) (inp : PsbtInput) : PsbtInput :=
  match inp.witnessUtxo with
  | some wu =>
    if wu.script = p2wpkhScript key.pubkey then attachSig key 1 inp wu
    else inp
  | none => inp

/- Concrete fixtures used by the witness theorems. -/

/-- A key pair whose public key is the point derived from its scalar. -/
def wKey : KeyPair := ⟨[1], [10]⟩

/-- An input locked to wKey, ready to sign. -/
def wInpOwned : PsbtInput := ⟨[1], 0, some ⟨20000, p2wpkhScript [10]⟩, none, none⟩

/-- An input locked to a foreign key that arrives carrying a garbage partial
signature from elsewhere. -/
def wInpForeign : PsbtInput :=
  ⟨[2], 1, some ⟨5000, 0x00 :: 0x14 :: List.replicate 20 9⟩, some ⟨[9], [1, 2, 3], 1⟩, none⟩

/-- A two input PSBT: one input ours, one foreign with a bad signature. -/
def wPsbt1 : Psbt := ⟨[wInpOwned, wInpForeign], [⟨9000, p2wpkhScript [11]⟩]⟩

/-- An input already carrying a partial signature that finalizes on its own. -/
def wInpSigned (t : Nat) : PsbtInput :=
  ⟨[t], 0, some ⟨1000, p2wpkhScript [10]⟩, some ⟨[10], [1, 2], 1⟩, none⟩

/-- An input with no partial signature, so finalization of it fails. -/
def wInpUnsigned : PsbtInput := ⟨[5], 2, some ⟨1000, p2wpkhScript [10]⟩, none, none⟩

/-- Three inputs of which the first two would individually finalize and the
third lacks its partial signature. -/
def wPsbt2 : Psbt := ⟨[wInpSigned 3, wInpSigned 4, wInpUnsigned], []⟩

/-- A two input PSBT for the signing count fixture: the first input locked
to wKey, the second locked elsewhere. -/
def wPsbt3 : Psbt :=
  ⟨[⟨[6], 0, some ⟨800, p2wpkhScript [10]⟩, none, none⟩,
    ⟨[7], 1, some ⟨900, 0x00 :: 0x14 :: List.replicate 20 4⟩, none, none⟩], []⟩

/-- A PSBT whose single input is not finalized. -/
def wPsbt5a : Psbt := ⟨[⟨[1], 0, some ⟨100, p2wpkhScript [10]⟩, none, none⟩], []⟩

/-- A PSBT whose single input carries a finalized witness. -/
def wPsbt5b : Psbt :=
  ⟨[⟨[1], 0, some ⟨100, p2wpkhScript [10]⟩, none, some ⟨[[1, 2], [10]]⟩⟩], []⟩

/-- A key for the determinism fixture. -/
def wKey8 : KeyPair := ⟨[2], [20]⟩

/-- The witnessUtxo of the determinism fixture. -/
def wWu8 : WitnessUtxo := ⟨700, p2wpkhScript [20]⟩

/-- The input of the determinism fixture, locked to wKey8. -/
def wInp8 : PsbtInput := ⟨[8], 0, some wWu8, none, none⟩

/-- A single input PSBT locked to wKey8. -/
def wPsbt8 : Psbt := ⟨[wInp8], []⟩

/-- An input whose witnessUtxo script is the P2WPKH script of a key used on
mainnet; the PSBT it sits in belongs to mainnet. -/
def wInp9 : PsbtInput := ⟨[5], 0, some ⟨1000, p2wpkhScript [2]⟩, none, none⟩

/-- A concrete UTXO list for the materializer fixtures. -/
def wUtxos4 : List Utxo := [⟨[7], 1, 20000, [170, 170]⟩, ⟨[8], 0, 30000, [5]⟩]

/-- A key for the materializer fixtures. -/
def wKey4 : KeyPair := ⟨[3], [24]⟩

/-- A concrete UTXO list for the change address fixture. -/
def wUtxos10 : List Utxo := [⟨[9], 0, 5000, [1]⟩]

/-- A key for the change address fixture. -/
def wKey10 : KeyPair := ⟨[4], [31]⟩

/- Helper lemmas. -/

/-- An input with no partial signature fails to finalize. -/
theorem finalizeInput_err_of_noSig (inp : PsbtInput) (h : inp.partialSig = none) :
    finalizeInput inp = .error .incompleteInput := by
  simp [finalizeInput, h]

/-- If any member of the list fails to finalize, finalizing the list fails. -/
theorem finalizeInputsGo_error {l : List PsbtInput} {inp : PsbtInput} {e0 : Err}
    (hm : inp ∈ l) (he : finalizeInput inp = .error e0) :
    ∃ e, finalizeInputsGo l = .error e := by
  induction l with
  | nil => cases hm
  | cons a t ih =>
    rcases List.mem_cons.mp hm with h | h
    · subst h
      exact ⟨e0, by simp [finalizeInputsGo, he]⟩
    · cases ha : finalizeInput a with
      | error e => exact ⟨e, by simp [finalizeInputsGo, ha]⟩
      | ok a2 =>
        obtain ⟨e, hrec⟩ := ih h
        exact ⟨e, by simp [finalizeInputsGo, ha, hrec]⟩

/-- Decoding the owner address back on the same network yields exactly the
P2WPKH script of the key. -/
theorem toOutputScript_owner (pk : List Nat) (n : Network) :
    toOutputScript (p2wpkhAddress pk n) n = .ok (p2wpkhScript pk) := by
  simp [toOutputScript, p2wpkhAddress, p2wpkhScript]

/-- Materializing any UTXO list against the owner address gives the owner
script on every entry and preserves txid, vout and value. -/
theorem materializeUtxos_owner (pk : List Nat) (n : Network) (l : List Utxo) :
    materializeUtxos (p2wpkhAddress pk n) n l =
      .ok (l.map fun u => ⟨u.txid, u.vout, u.value, p2wpkhScript pk, none⟩) := by
  induction l with
  | nil => rfl
  | cons u t ih => simp [materializeUtxos, materializeUtxo, toOutputScript_owner, ih]

/-- buildTransfer on a nonempty UTXO list succeeds with the body the script
constructs. -/
theorem buildTransfer_ok (netArg toAddress amountBtc : String) (key : KeyPair)
    (feeRate : Nat) (utxos : List Utxo) (h : utxos ≠ []) :
    buildTransfer netArg toAddress amountBtc key feeRate utxos =
      .ok ⟨toLowerStr netArg, toAddress, amountBtc,
        p2wpkhAddress key.pubkey (networkTernary netArg), feeRate, false,
        utxos.map fun u => ⟨u.txid, u.vout, u.value, p2wpkhScript key.pubkey, none⟩⟩ := by
  have hlen : ¬ utxos.length = 0 := by simpa using h
  simp [buildTransfer, hlen, materializeUtxos_owner]

/- Claim theorems. -/

/-- C6: for an empty UTXO list the materializer fails with EmptyUtxoSet and
emits no transfer request body. -/
theorem empty_utxo_list_fails (netArg toAddress amountBtc : String)
    (key : KeyPair) (feeRate : Nat) :
    buildTransfer netArg toAddress amountBtc key feeRate [] = .error .emptyUtxoSet := rfl

/-- C7 counterexample: the claim fails as stated - getNetwork accepts the
selector bitcoin, which is outside the four recognized identifiers, and the
network ternary of fetch_utxos_and_build.js silently resolves the
unrecognized selector abc to mainnet instead of failing. -/
theorem network_resolution_cex :
    getNetwork "bitcoin" = .ok .bitcoin ∧ networkTernary "abc" = .bitcoin := by
  exact ⟨rfl, rfl⟩

/-- C7 amended: getNetwork fails with UnknownNetwork for every selector
whose lowercase form is outside mainnet, bitcoin, testnet, signet, regtest,
while the ternary of fetch_utxos_and_build.js never fails: it resolves
selectors lowercasing to testnet and silently defaults everything else to
mainnet. -/
theorem network_resolution_amended (s : String) :
    (toLowerStr s ≠ "mainnet" → toLowerStr s ≠ "bitcoin" → toLowerStr s ≠ "testnet" →
      toLowerStr s ≠ "signet" → toLowerStr s ≠ "regtest" →
      getNetwork s = .error .unknownNetwork) ∧
    (toLowerStr s ≠ "testnet" → networkTernary s = .bitcoin) ∧
    (toLowerStr s = "testnet" → networkTernary s = .testnet) := by
  refine ⟨fun h1 h2 h3 h4 h5 => ?_, fun h => ?_, fun h => ?_⟩
  · simp only [getNetwork]
    rw [if_neg (by simp [h1, h2]), if_neg h3, if_neg h4, if_neg h5]
  · simp only [networkTernary, if_neg h]
  · simp only [networkTernary, if_pos h]

/-- C7 amended witness at the concrete selector abc. -/
theorem network_resolution_amended_witness :
    getNetwork "abc" = .error .unknownNetwork ∧ networkTernary "abc" = .bitcoin :=
  ⟨(network_resolution_amended "abc").1 (by decide) (by decide) (by decide)
      (by decide) (by decide),
    (network_resolution_amended "abc").2.1 (by decide)⟩

/-- C5: extraction fails with NotFullyFinalized, producing no bytes and no
id, whenever some input is not finalized, and succeeds when every input is
finalized. -/
theorem extract_requires_full_finalization (psbt : Psbt) :
    ((∃ inp ∈ psbt.inputs, inp.finalWitness = none) →
      extractTransaction psbt = .error .notFullyFinalized) ∧
    ((∀ inp ∈ psbt.inputs, inp.finalWitness.isSome) →
      ∃ tx, extractTransaction psbt = .ok tx) := by
  constructor
  · rintro ⟨inp, hm, hw⟩
    have hall : ¬ (psbt.inputs.all fun i => i.finalWitness.isSome) = true := by
      simp only [List.all_eq_true]
      intro hc
      have := hc inp hm
      rw [hw] at this
      simp at this
    simp [extractTransaction, hall]
  · intro h
    have hall : (psbt.inputs.all fun i => i.finalWitness.isSome) = true := by
      simp only [List.all_eq_true]
      exact h
    exact ⟨⟨serializeTx psbt, txidOf psbt⟩, by simp [extractTransaction, hall]⟩

set_option maxRecDepth 8000 in
/-- C5 witness: a one input PSBT with an unfinalized input fails, and the
same PSBT with a finalized witness extracts. -/
theorem extract_requires_full_finalization_witness :
    extractTransaction wPsbt5a = .error .notFullyFinalized ∧
    ∃ tx, extractTransaction wPsbt5b = .ok tx :=
  ⟨(extract_requires_full_finalization wPsbt5a).1
      ⟨⟨[1], 0, some ⟨100, p2wpkhScript [10]⟩, none, none⟩, by decide, rfl⟩,
    (extract_requires_full_finalization wPsbt5b).2 (by decide)⟩

/-- C2: when any input of the PSBT lacks its partial signature,
finalizeAllInputs aborts with an error and returns the PSBT in its exact
pre-finalization state, every input unfinalized. -/
theorem finalizeAll_atomic_on_failure (psbt : Psbt) (i : Nat) (inp : PsbtInput)
    (hi : psbt.inputs[i]? = some inp) (hs : inp.partialSig = none) :
    ∃ e, finalizeAllInputsState psbt = (psbt, some e) := by
  obtain ⟨e, hgo⟩ :=
    finalizeInputsGo_error (List.getElem?_mem hi) (finalizeInput_err_of_noSig inp hs)
  exact ⟨e, by simp [finalizeAllInputsState, hgo]⟩

set_option maxRecDepth 8000 in
/-- C2 witness: in a three input PSBT whose first two inputs finalize on
their own and whose third lacks a partial signature, finalizeAllInputs
errors and hands back the untouched PSBT. -/
theorem finalizeAll_atomic_on_failure_witness :
    (finalizeInput (wInpSigned 3)).isOk = true ∧
    (finalizeInput (wInpSigned 4)).isOk = true ∧
    wPsbt2.inputs[2]? = some wInpUnsigned ∧
    (∃ e, finalizeAllInputsState wPsbt2 = (wPsbt2, some e)) :=
  ⟨by decide, by decide, by decide,
    finalizeAll_atomic_on_failure wPsbt2 2 wInpUnsigned (by decide) rfl⟩

/-- C4: on a nonempty UTXO list every emitted input descriptor carries the
locking script derived from the owner key, never the script material of the
external response, while txid, vout and value pass through unchanged. -/
theorem materializer_uses_owner_script (netArg toAddress amountBtc : String)
    (key : KeyPair) (feeRate : Nat) (utxos : List Utxo) (h : utxos ≠ []) :
    ∃ t, buildTransfer netArg toAddress amountBtc key feeRate utxos = .ok t ∧
      ∀ i : Nat, t.utxos[i]? = (utxos[i]?).map fun u =>
        ⟨u.txid, u.vout, u.value, p2wpkhScript key.pubkey, none⟩ := by
  refine ⟨_, buildTransfer_ok netArg toAddress amountBtc key feeRate utxos h, ?_⟩
  intro i
  simp [List.getElem?_map]

set_option maxRecDepth 8000 in
/-- C4 witness: two concrete UTXOs carrying foreign response scripts come
out with the owner script and their txid, vout and value intact. -/
theorem materializer_uses_owner_script_witness :
    ∃ t, buildTransfer "testnet" "tb1qdest" "0.0001" wKey4 5 wUtxos4 = .ok t ∧
      ∀ i : Nat, t.utxos[i]? = (wUtxos4[i]?).map fun u =>
        ⟨u.txid, u.vout, u.value, p2wpkhScript wKey4.pubkey, none⟩ :=
  materializer_uses_owner_script "testnet" "tb1qdest" "0.0001" wKey4 5 wUtxos4 (by decide)

/-- C10: every transfer request body the materializer emits fixes the change
address to the owner address derived from the supplied key on the selected
network; no argument of the interface can direct change elsewhere. -/
theorem change_address_is_owner (netArg toAddress amountBtc : String)
    (key : KeyPair) (feeRate : Nat) (utxos : List Utxo) (h : utxos ≠ []) :
    ∃ t, buildTransfer netArg toAddress amountBtc key feeRate utxos = .ok t ∧
      t.changeAddress = p2wpkhAddress key.pubkey (networkTernary netArg) :=
  ⟨_, buildTransfer_ok netArg toAddress amountBtc key feeRate utxos h, rfl⟩

set_option maxRecDepth 8000 in
/-- C10 witness: a concrete build on mainnet puts the owner address of the
key in the change address field. -/
theorem change_address_is_owner_witness :
    ∃ t, buildTransfer "mainnet" "bc1qdest" "0.00005" wKey10 2 wUtxos10 = .ok t ∧
      t.changeAddress = p2wpkhAddress wKey10.pubkey (networkTernary "mainnet") :=
  change_address_is_owner "mainnet" "bc1qdest" "0.00005" wKey10 2 wUtxos10 (by decide)

/-- C8: signing is deterministic - two invocations of signInput with
identical PSBT, index, key and sighash type are the same value, and on a
matching input the attached signature is exactly the deterministic ecc.sign
output over the recomputed digest, a pure function of digest and private
key with no randomness input. -/
theorem signing_deterministic (psbt : Psbt) (i : Nat) (key : KeyPair) (t : Nat) :
    signInput psbt i key t = signInput psbt i key t ∧
    (∀ inp wu, psbt.inputs[i]? = some inp → inp.witnessUtxo = some wu →
      wu.script = p2wpkhScript key.pubkey →
      signInput psbt i key t =
        .ok { psbt with inputs := psbt.inputs.set i (attachSig key t inp wu) }) := by
  refine ⟨rfl, fun inp wu hi hw hs => ?_⟩
  simp [signInput, hi, hw, hs]

set_option maxRecDepth 8000 in
/-- C8 witness: signing the concrete single input PSBT attaches precisely
the deterministic signature. -/
theorem signing_deterministic_witness :
    wPsbt8.inputs[0]? = some wInp8 ∧
    signInput wPsbt8 0 wKey8 1 =
      .ok { wPsbt8 with inputs := wPsbt8.inputs.set 0 (attachSig wKey8 1 wInp8 wWu8) } :=
  ⟨by decide, (signing_deterministic wPsbt8 0 wKey8 1).2 wInp8 wWu8 (by decide) rfl rfl⟩

set_option maxRecDepth 8000 in
/-- C9: the address printing of inspect_psbt.js decodes every witnessUtxo
script with the testnet network hardcoded - on an input whose script is the
mainnet P2WPKH script of a key it reports the testnet prefixed address,
while decoding for the true network gives the bc prefix. -/
theorem inspect_address_hardcodes_testnet :
    inspectAddress wInp9 = some ⟨"tb", hash160 [2]⟩ ∧
    fromOutputScript (p2wpkhScript [2]) .bitcoin = some ⟨"bc", hash160 [2]⟩ ∧
    (Address.mk "tb" (hash160 [2])) ≠ (Address.mk "bc" (hash160 [2])) := by
  refine ⟨by decide, by decide, by decide⟩

/-- A non-matching input is left untouched by the signing step. -/
theorem signElem_noop {key : KeyPair} {inp : PsbtInput}
    (h : matchesKey key inp = false) : signElem key inp = inp := by
  unfold signElem
  unfold matchesKey at h
  cases hw : inp.witnessUtxo with
  | none => rfl
  | some wu =>
    rw [hw] at h
    simp only [decide_eq_false_iff_not] at h
    simp [h]

/-- signInput in terms of the input found at the index. -/
theorem signInput_eq_of_getElem (psbt : Psbt) (i : Nat) (key : KeyPair) (t : Nat)
    (inp : PsbtInput) (hi : psbt.inputs[i]? = some inp) :
    signInput psbt i key t =
      match inp.witnessUtxo with
      | none => .error .missingPrevoutData
      | some wu =>
        if wu.script = p2wpkhScript key.pubkey then
          .ok { psbt with inputs := psbt.inputs.set i (attachSig key t inp wu) }
        else .error .signingSkipped := by
  unfold signInput
  rw [hi]

/-- Invariant of the signing loop: after the first k indices the first k
inputs have been processed elementwise, the rest are untouched, and the
count equals the matching inputs among the first k. -/
theorem signAllLoop_inv (psbt : Psbt) (key : KeyPair) :
    ∀ k, k ≤ psbt.inputs.length →
      (List.range k).foldl
        (fun st i =>
          match signInput st.1 i key 1 with
          | .ok p => (p, st.2 + 1)
          | .error _ => st)
        (psbt, 0) =
      ({ psbt with inputs := (psbt.inputs.take k).map (signElem key) ++ psbt.inputs.drop k },
        (psbt.inputs.take k).countP (matchesKey key)) := by
  intro k hk
  induction k with
  | zero => simp
  | succ k ih =>
    have hk' : k ≤ psbt.inputs.length := Nat.le_of_succ_le hk
    have hlt : k < psbt.inputs.length := hk
    have hA : ((psbt.inputs.take k).map (signElem key)).length = k := by
      simp [List.length_map, List.length_take, Nat.min_eq_left hk']
    have hidx :
        (((psbt.inputs.take k).map (signElem key)) ++ psbt.inputs.drop k)[k]? =
          some psbt.inputs[k] := by
      rw [List.getElem?_append_right (le_of_eq hA), hA, Nat.sub_self,
        List.getElem?_drop, Nat.add_zero]
      exact List.getElem?_eq_getElem hlt
    have htake : (psbt.inputs.take (k + 1)).map (signElem key) =
        (psbt.inputs.take k).map (signElem key) ++ [signElem key psbt.inputs[k]] := by
      rw [List.take_succ, List.map_append, List.getElem?_eq_getElem hlt]
      rfl
    have hdrop : psbt.inputs.drop k = psbt.inputs[k] :: psbt.inputs.drop (k + 1) :=
      List.drop_eq_getElem_cons hlt
    have hcount : (psbt.inputs.take (k + 1)).countP (matchesKey key) =
        (psbt.inputs.take k).countP (matchesKey key) +
          (if matchesKey key psbt.inputs[k] then 1 else 0) := by
      rw [List.take_succ, List.countP_append, List.getElem?_eq_getElem hlt]
      simp [List.countP_cons]
    rw [List.range_succ, List.foldl_append, ih hk']
    simp only [List.foldl_cons, List.foldl_nil]
    have hsign := signInput_eq_of_getElem
      { psbt with inputs := (psbt.inputs.take k).map (signElem key) ++ psbt.inputs.drop k }
      k key 1 psbt.inputs[k] hidx
    cases hw : psbt.inputs[k].witnessUtxo with
    | none =>
      simp only [hw] at hsign
      simp only [hsign]
      have hm : matchesKey key psbt.inputs[k] = false := by
        unfold matchesKey
        rw [hw]
      have hel : signElem key psbt.inputs[k] = psbt.inputs[k] := signElem_noop hm
      rw [htake, hcount, hm, hel, hdrop]
      simp [List.append_assoc]
    | some wu =>
      simp only [hw] at hsign
      by_cases hs : wu.script = p2wpkhScript key.pubkey
      · rw [if_pos hs] at hsign
        simp only [hsign]
        have hm : matchesKey key psbt.inputs[k] = true := by
          unfold matchesKey
          rw [hw]
          simp [hs]
        have hel : signElem key psbt.inputs[k] = attachSig key 1 psbt.inputs[k] wu := by
          unfold signElem
          simp only [hw]
          rw [if_pos hs]
        have hset :
            ((psbt.inputs.take k).map (signElem key) ++ psbt.inputs.drop k).set k
                (attachSig key 1 psbt.inputs[k] wu) =
              (psbt.inputs.take k).map (signElem key) ++
                (attachSig key 1 psbt.inputs[k] wu :: psbt.inputs.drop (k + 1)) := by
          rw [List.set_append, if_neg (by rw [hA]; exact lt_irrefl k), hA, Nat.sub_self,
            hdrop, List.set_cons_zero]
        rw [htake, hcount, hm, hel, hset]
        simp [List.append_assoc]
      · rw [if_neg hs] at hsign
        simp only [hsign]
        have hm : matchesKey key psbt.inputs[k] = false := by
          unfold matchesKey
          rw [hw]
          simp [hs]
        have hel : signElem key psbt.inputs[k] = psbt.inputs[k] := signElem_noop hm
        rw [htake, hcount, hm, hel, hdrop]
        simp [List.append_assoc]

/-- The signing loop signs exactly the matching inputs elementwise and
counts them. -/
theorem signAllLoop_eq (psbt : Psbt) (key : KeyPair) :
    signAllLoop psbt key =
      ({ psbt with inputs := psbt.inputs.map (signElem key) },
        psbt.inputs.countP (matchesKey key)) := by
  have h := signAllLoop_inv psbt key psbt.inputs.length (le_refl _)
  simpa [signAllLoop, List.take_length, List.drop_length] using h

/-- C3: the signing loop treats a per-input locking script mismatch as a
soft skip - when some inputs match the key the operation succeeds with a
signed count equal to the number of matching inputs and leaves every
non-matching input untouched, while a zero count is the hard failure
NoInputsSigned. -/
theorem signAll_skip_vs_fail (psbt : Psbt) (key : KeyPair) :
    (psbt.inputs.countP (matchesKey key) = 0 →
      signAllChecked psbt key = .error .noInputsSigned) ∧
    (psbt.inputs.countP (matchesKey key) ≠ 0 →
      ∃ p, signAllChecked psbt key = .ok (p, psbt.inputs.countP (matchesKey key)) ∧
        ∀ (i : Nat) (inp : PsbtInput), psbt.inputs[i]? = some inp →
          matchesKey key inp = false → p.inputs[i]? = some inp) := by
  constructor
  · intro h0
    simp [signAllChecked, signAllLoop_eq, h0]
  · intro hne
    refine ⟨{ psbt with inputs := psbt.inputs.map (signElem key) }, ?_, ?_⟩
    · simp [signAllChecked, signAllLoop_eq, hne]
    · intro i inp hi hm
      simp [List.getElem?_map, hi, signElem_noop hm]

set_option maxRecDepth 8000 in
/-- C3 witness: a two input PSBT of which only the first input is locked to
the key signs with count one and returns the second input untouched. -/
theorem signAll_skip_vs_fail_witness :
    wPsbt3.inputs.countP (matchesKey wKey) = 1 ∧
    (∃ p, signAllChecked wPsbt3 wKey = .ok (p, wPsbt3.inputs.countP (matchesKey wKey)) ∧
      ∀ (i : Nat) (inp : PsbtInput), wPsbt3.inputs[i]? = some inp →
        matchesKey wKey inp = false → p.inputs[i]? = some inp) :=
  ⟨by decide, (signAll_skip_vs_fail wPsbt3 wKey).2 (by decide)⟩

/-- C1: whenever the independent signature re-verification over the signed
PSBT returns false, the pipeline never reaches finalizeAllInputs, the
session ends in an error, and past the signed count check that error is
exactly SignatureVerificationFailed rather than a silent continuation. -/
theorem pipeline_blocks_unverified (netArg : String) (key : KeyPair) (psbt0 : Psbt)
    (hv : validateSignaturesOfAllInputs (signAllLoop psbt0 key).1 = false) :
    Event.finalizedAll ∉ (signAndBroadcastPipeline netArg key psbt0).2 ∧
    (∃ e, (signAndBroadcastPipeline netArg key psbt0).1 = .error e) ∧
    (∀ n, getNetwork netArg = .ok n → (signAllLoop psbt0 key).2 ≠ 0 →
      (signAndBroadcastPipeline netArg key psbt0).1 = .error .signatureVerificationFailed) := by
  cases hg : getNetwork netArg with
  | error e =>
    have hp : signAndBroadcastPipeline netArg key psbt0 = (.error e, []) := by
      simp [signAndBroadcastPipeline, hg]
    refine ⟨by rw [hp]; simp, ⟨e, by rw [hp]⟩, fun n hn => ?_⟩
    exact Except.noConfusion hn
  | ok n0 =>
    by_cases h0 : (signAllLoop psbt0 key).2 = 0
    · have hp : signAndBroadcastPipeline netArg key psbt0 =
          (.error .noInputsSigned, [.signedCount (signAllLoop psbt0 key).2]) := by
        simp [signAndBroadcastPipeline, hg, h0]
      refine ⟨by rw [hp]; simp, ⟨.noInputsSigned, by rw [hp]⟩, fun n hn hne => absurd h0 hne⟩
    · have hp : signAndBroadcastPipeline netArg key psbt0 =
          (.error .signatureVerificationFailed,
            [.signedCount (signAllLoop psbt0 key).2, .validated false]) := by
        simp [signAndBroadcastPipeline, hg, h0, hv]
      exact ⟨by rw [hp]; simp, ⟨.signatureVerificationFailed, by rw [hp]⟩,
        fun n hn hne => by rw [hp]⟩

set_option maxRecDepth 8000 in
/-- C1 witness: on the concrete two input PSBT whose foreign input carries a
bad signature, one input signs, validation returns false, and the pipeline
stops with SignatureVerificationFailed without ever finalizing. -/
theorem pipeline_blocks_unverified_witness :
    validateSignaturesOfAllInputs (signAllLoop wPsbt1 wKey).1 = false ∧
    Event.finalizedAll ∉ (signAndBroadcastPipeline "testnet" wKey wPsbt1).2 ∧
    (signAndBroadcastPipeline "testnet" wKey wPsbt1).1 = .error .signatureVerificationFailed := by
  have h := pipeline_blocks_unverified "testnet" wKey wPsbt1 (by decide)
  exact ⟨by decide, h.1, h.2.2 .testnet rfl (by decide)⟩

end BtcCore
